import Mathlib

/-!
# wisdom / yt / ytscraper.go

A shallow embedding of the YouTube channel scraper: the paginated id
enumeration (`fetchChannelVideos`), the batched detail fetch
(`fetchVideoDetails`), the field helpers (`extractTopics`, `join`,
`StringToInt`) and the upserting writer (`writeToPostgres`).

Go `string` is modelled by `String`, Go `int` by `Int`, slices by `List`.
The HTTP transport and the SQL driver are external: every `http.Get` is a
call to a state-passing source, every `db.Exec` a step on a table.
-/

set_option autoImplicit false

namespace Ytscraper

/-! ## Definitions -/

/-! ### join -/

/-- The `for i, element := range elements` loop of `join`; `i` is the range
index and `result` the string built so far. -/
def joinLoop (delimiter : String) : Nat → String → List String → String
  | _, result, [] => result
  | i, result, element :: rest =>
    let result := if i > 0 then result ++ delimiter else result
    joinLoop delimiter (i + 1) (result ++ element) rest

/-- Go `join(elements, delimiter)`. -/
def join (elements : List String) (delimiter : String) : String :=
  joinLoop delimiter 0 "" elements

/-! ### StringToInt (over `strconv.Atoi`) -/

/-- The two `*strconv.NumError` causes: `ErrSyntax` and `ErrRange`. -/
inductive NumError where
  | invalid
  | outOfRange
  deriving DecidableEq, Repr

/-- Value of `maxUint64/10 + 1`, the `cutoff` of `strconv.ParseUint` in base 10. -/
def cutoff10 : Nat := 1844674407370955162

/-- Value of `1<<64`. -/
def twoPow64 : Nat := 18446744073709551616

/-- Value of `1<<63`, the `cutoff` of `strconv.ParseInt` for a 64-bit `int`. -/
def twoPow63 : Nat := 9223372036854775808

/-- The digit loop of `strconv.ParseUint(s, 10, 64)`; `n` is the `uint64`
accumulator.  A letter has digit value at least 10, which base 10 rejects, and
any other byte is rejected outright, so every non-digit is a syntax error. -/
def parseUintLoop : List Char → Nat → Except NumError Nat
  | [], n => .ok n
  | c :: cs, n =>
    if '0' ≤ c ∧ c ≤ '9' then
      let d := c.toNat - '0'.toNat
      if n ≥ cutoff10 then .error .outOfRange
      else
        let n := n * 10
        let n1 := (n + d) % twoPow64
        if n1 < n ∨ n1 > twoPow64 - 1 then .error .outOfRange
        else parseUintLoop cs n1
    else .error .invalid

/-- Go `strconv.ParseUint(s, 10, 64)`. -/
def parseUint (s : List Char) : Except NumError Nat :=
  if s = [] then .error .invalid else parseUintLoop s 0

/-- Go `strconv.ParseInt(s, 10, 0)` on a 64-bit platform: an optional sign,
then `ParseUint`, then the signed range check.  A range error of `ParseUint`
comes with the value `maxUint64`, which fails the signed range check too, so
it stays a range error. -/
def parseInt (s : List Char) : Except NumError Int :=
  if s = [] then .error .invalid
  else
    let neg := s.head? = some '-'
    let body := if s.head? = some '+' ∨ s.head? = some '-' then s.tail else s
    match parseUint body with
    | .error .invalid => .error .invalid
    | .error .outOfRange => .error .outOfRange
    | .ok un =>
      if ¬ neg ∧ un ≥ twoPow63 then .error .outOfRange
      else if neg ∧ un > twoPow63 then .error .outOfRange
      else if neg then .ok (-(un : Int)) else .ok (un : Int)

/-- Go `strconv.Atoi(s)`, which is `ParseInt(s, 10, 0)` converted to `int`. -/
def atoi (s : String) : Except NumError Int :=
  parseInt s.data

/-- Go `StringToInt(s)`: the parsed number, or 0 when `Atoi` reports an error. -/
def StringToInt (s : String) : Int :=
  match atoi s with
  | .error _ => 0
  | .ok num => num

/-! ### extractTopics (over `strings.Split`) -/

/-- Go `strings.Split(s, sep)` for a one-byte separator, on the characters of
`s`: the pieces between the occurrences of `sep`, always at least one piece. -/
def splitChars (sep : Char) : List Char → List (List Char)
  | [] => [[]]
  | c :: cs =>
    if c = sep then [] :: splitChars sep cs
    else
      match splitChars sep cs with
      | [] => [[c]]
      | p :: ps => (c :: p) :: ps

/-- Go `strings.Split(s, "/")`. -/
def splitSlash (s : String) : List String :=
  (splitChars '/' s.data).map String.mk

/-- The body of the `for _, in := range input` loop of `extractTopics`. -/
def extractTopicsStep (result : List String) (input : String) : List String :=
  let parts := splitSlash input
  if parts.length > 0 then result ++ [parts.getD (parts.length - 1) ""] else result

/-- Go `extractTopics(input)`. -/
def extractTopics (input : List String) : List String :=
  input.foldl extractTopicsStep []

/-! ### Records and HTTP exchanges -/

/-- Go `Video`. -/
structure Video where
  ID : String
  ChannelTitle : String
  Title : String
  Description : String
  PublishedAt : String
  ViewCount : Int
  LikeCount : Int
  DislikeCount : Int
  CommentCount : Int
  Topics : List String
  Tags : List String
  deriving DecidableEq, Repr

/-- The `Snippet` struct of an item of `YouTubeVideoDetails`. -/
structure Snippet where
  Title : String
  Description : String
  PublishedAt : String
  ChannelTitle : String
  Tags : List String
  deriving DecidableEq, Repr

/-- The `Statistics` struct of an item of `YouTubeVideoDetails`. -/
structure Statistics where
  ViewCount : String
  LikeCount : String
  DislikeCount : String
  CommentCount : String
  deriving DecidableEq, Repr

/-- The `TopicDetails` struct of an item of `YouTubeVideoDetails`. -/
structure TopicDetails where
  TopicCategories : List String
  deriving DecidableEq, Repr

/-- One element of `YouTubeVideoDetails.Items`. -/
structure DetailsItem where
  VideoID : String
  Snippet : Snippet
  Statistics : Statistics
  TopicDetails : TopicDetails
  deriving DecidableEq, Repr

/-- Go `YouTubeVideoDetails`, the decoded body of a details response. -/
structure YouTubeVideoDetails where
  Items : List DetailsItem
  deriving DecidableEq, Repr

/-- One element of the `Items` of the anonymous listing response struct; the
field is `item.ID.VideoID`. -/
structure SearchItem where
  VideoID : String
  deriving DecidableEq, Repr

/-- The anonymous `ytResponse` struct decoded by `fetchChannelVideos`. -/
structure SearchResponse where
  Items : List SearchItem
  NextPageToken : String
  deriving DecidableEq, Repr

/-- What one `http.Get(url)` followed by `json.NewDecoder(...).Decode` yields:
either `err != nil` from the transport, or a response with its status code,
its status text and the outcome of decoding its body. -/
inductive HttpReply (α : Type) where
  | transportError (err : String)
  | response (statusCode : Nat) (status : String) (body : Except String α)

/-- The query parameters that `fetchChannelVideos` formats into its URL. -/
structure SearchRequest where
  channelId : String
  key : String
  maxResults : Int
  pageToken : String
  deriving DecidableEq, Repr

/-- The query parameters that `fetchVideoDetails` formats into its URL. -/
structure VideosRequest where
  id : String
  key : String
  deriving DecidableEq, Repr

/-- The result of running a fetch: the final state of the remote source, the
requests issued with their replies, in order, and the Go return value
(`.error err` for `(nil, err)`). -/
structure Run (σ Req Resp α : Type) where
  state : σ
  exchanges : List (Req × HttpReply Resp)
  result : Except String α

/-- The requests of a run, in the order they were issued. -/
def Run.requests {σ Req Resp α : Type} (r : Run σ Req Resp α) : List Req :=
  r.exchanges.map Prod.fst

/-- Go `http.StatusOK`. -/
def statusOK : Nat := 200

/-! ### fetchChannelVideos -/

/-- The `for { ... }` loop of `fetchChannelVideos`.  One unit of fuel is one
iteration; `none` means the fuel ran out before the loop left.  `countSoFar`
only ever holds `len(videoIDs)`, a slice length, so the `int` additions are
exact. -/
def fetchChannelVideosLoop {σ : Type}
    (get : σ → SearchRequest → σ × HttpReply SearchResponse)
    (apiKey channelID : String) (maxVideoCount : Int) :
    Nat → σ → List (SearchRequest × HttpReply SearchResponse) → List String → String →
      Int → Int → Option (Run σ SearchRequest SearchResponse (List String))
  | 0, _, _, _, _, _, _ => none
  | fuel + 1, st, log, videoIDs, pageToken, batchSize, countSoFar =>
    let batchSize :=
      if countSoFar + batchSize > maxVideoCount then maxVideoCount - countSoFar else batchSize
    let req : SearchRequest := ⟨channelID, apiKey, batchSize, pageToken⟩
    match get st req with
    | (st, .transportError err) => some ⟨st, log ++ [(req, .transportError err)], .error err⟩
    | (st, .response code status body) =>
      let log := log ++ [(req, .response code status body)]
      if code ≠ statusOK then
        some ⟨st, log, .error ("failed to fetch channel videos: " ++ status)⟩
      else
        match body with
        | .error err => some ⟨st, log, .error err⟩
        | .ok ytResponse =>
          let videoIDs := videoIDs ++ ytResponse.Items.map (fun item => item.VideoID)
          if ytResponse.NextPageToken = "" ∨ countSoFar ≥ maxVideoCount then
            some ⟨st, log, .ok videoIDs⟩
          else
            fetchChannelVideosLoop get apiKey channelID maxVideoCount fuel st log videoIDs
              ytResponse.NextPageToken batchSize (countSoFar + ytResponse.Items.length)

/-- Go `fetchChannelVideos(apiKey, channelID, maxVideoCount)` against the
listing source `get` in state `st`, run for at most `fuel` page requests. -/
def fetchChannelVideos {σ : Type}
    (get : σ → SearchRequest → σ × HttpReply SearchResponse) (st : σ)
    (apiKey channelID : String) (maxVideoCount : Int) (fuel : Nat) :
    Option (Run σ SearchRequest SearchResponse (List String)) :=
  let batchSize : Int := 50
  let batchSize := if maxVideoCount < batchSize then maxVideoCount else batchSize
  fetchChannelVideosLoop get apiKey channelID maxVideoCount fuel st [] [] "" batchSize 0

/-! ### fetchVideoDetails -/

/-- The composite literal `Video{...}` built for one response item. -/
def toVideo (item : DetailsItem) : Video :=
  { ID := item.VideoID
    Title := item.Snippet.Title
    Description := item.Snippet.Description
    PublishedAt := item.Snippet.PublishedAt
    ChannelTitle := item.Snippet.ChannelTitle
    ViewCount := StringToInt item.Statistics.ViewCount
    LikeCount := StringToInt item.Statistics.LikeCount
    DislikeCount := StringToInt item.Statistics.DislikeCount
    CommentCount := StringToInt item.Statistics.CommentCount
    Topics := extractTopics item.TopicDetails.TopicCategories
    Tags := item.Snippet.Tags }

/-- Go slice expression `xs[i:j]`. -/
def slice {α : Type} (xs : List α) (i j : Nat) : List α :=
  (xs.drop i).take (j - i)

/-- The `for i := 0; i < len(videoIDs); i += batchSize` loop of
`fetchVideoDetails`.  One unit of fuel is one test of the loop condition. -/
def fetchVideoDetailsLoop {σ : Type}
    (get : σ → VideosRequest → σ × HttpReply YouTubeVideoDetails)
    (apiKey : String) (videoIDs : List String) :
    Nat → σ → List (VideosRequest × HttpReply YouTubeVideoDetails) → List Video → Nat →
      Option (Run σ VideosRequest YouTubeVideoDetails (List Video))
  | 0, _, _, _, _ => none
  | fuel + 1, st, log, videos, i =>
    let batchSize := 50
    if i < videoIDs.length then
      let end_ := if i + batchSize > videoIDs.length then videoIDs.length else i + batchSize
      let req : VideosRequest := ⟨join (slice videoIDs i end_) ",", apiKey⟩
      match get st req with
      | (st, .transportError err) => some ⟨st, log ++ [(req, .transportError err)], .error err⟩
      | (st, .response code status body) =>
        let log := log ++ [(req, .response code status body)]
        if code ≠ statusOK then
          some ⟨st, log, .error ("failed to fetch video details: " ++ status)⟩
        else
          match body with
          | .error err => some ⟨st, log, .error err⟩
          | .ok ytResponse =>
            fetchVideoDetailsLoop get apiKey videoIDs fuel st log
              (videos ++ ytResponse.Items.map toVideo) (i + batchSize)
    else some ⟨st, log, .ok videos⟩

/-- Go `fetchVideoDetails(apiKey, videoIDs)` against the details source `get`
in state `st`.  The loop tests its condition at most `len(videoIDs) + 1`
times, which is the fuel given. -/
def fetchVideoDetails {σ : Type}
    (get : σ → VideosRequest → σ × HttpReply YouTubeVideoDetails) (st : σ)
    (apiKey : String) (videoIDs : List String) :
    Option (Run σ VideosRequest YouTubeVideoDetails (List Video)) :=
  fetchVideoDetailsLoop get apiKey videoIDs (videoIDs.length + 1) st [] [] 0

/-! ### writeToPostgres -/

/-- A row of table `videos`; also the eleven values bound to `$1 .. $11`. -/
structure Row where
  id : String
  channel : String
  title : String
  description : String
  published_at : String
  views : Int
  likes : Int
  dislikes : Int
  comment_count : Int
  topics : String
  tags : String
  deriving DecidableEq, Repr

/-- The `DO UPDATE SET` clause of the query: the six listed columns take the
values of the proposed row (`EXCLUDED`), the others keep the stored values. -/
def conflictUpdate (old excluded : Row) : Row :=
  { old with
    views := excluded.views
    likes := excluded.likes
    dislikes := excluded.dislikes
    comment_count := excluded.comment_count
    topics := excluded.topics
    tags := excluded.tags }

/-- The statement `INSERT INTO videos (...) VALUES (...) ON CONFLICT (id) DO
UPDATE SET ...` applied to a table: a stored row with the proposed `id` is
updated in place, and when there is none the proposed row is inserted. -/
def upsert (table : List Row) (proposed : Row) : List Row :=
  if table.any (fun old => decide (old.id = proposed.id)) then
    table.map (fun old => if old.id = proposed.id then conflictUpdate old proposed else old)
  else table ++ [proposed]

/-- The database behind `*sql.DB`: the rows of table `videos`, the argument
rows of the statements executed so far, and the outcome the driver gives the
statement number `n` (`none` for success, `some err` for a failure). -/
structure DB where
  table : List Row
  executed : List Row
  outcome : Nat → Option String

/-- Go `db.Exec(query, args...)`: a failing statement leaves the table as it
was, a succeeding one is the upsert. -/
def DB.exec (db : DB) (args : Row) : DB × Except String Unit :=
  match db.outcome db.executed.length with
  | some err => ({ db with executed := db.executed ++ [args] }, .error err)
  | none =>
    ({ db with table := upsert db.table args, executed := db.executed ++ [args] }, .ok ())

/-- The arguments `writeToPostgres` passes to `db.Exec` for one video. -/
def execArgs (video : Video) : Row :=
  { id := video.ID
    channel := video.ChannelTitle
    title := video.Title
    description := video.Description
    published_at := video.PublishedAt
    views := video.ViewCount
    likes := video.LikeCount
    dislikes := video.DislikeCount
    comment_count := video.CommentCount
    topics := join video.Topics ";"
    tags := join video.Tags ";" }

/-- Go `writeToPostgres(videos, db)`: the final database and the returned
error (`.ok ()` for `nil`). -/
def writeToPostgres : List Video → DB → DB × Except String Unit
  | [], db => (db, .ok ())
  | video :: rest, db =>
    match db.exec (execArgs video) with
    | (db, .error err) => (db, .error ("failed to insert video: " ++ err))
    | (db, .ok _) => writeToPostgres rest db

/-! ### Specification-side notions -/

/-- A decimal digit. -/
def isDigitChar (c : Char) : Bool :=
  decide ('0' ≤ c ∧ c ≤ '9')

/-- One or more decimal digits. -/
def allDigits (cs : List Char) : Bool :=
  !cs.isEmpty && cs.all isDigitChar

/-- The decimal value of a digit sequence continuing the value `n`. -/
def decimalValue (n : Nat) (cs : List Char) : Nat :=
  cs.foldl (fun acc c => acc * 10 + (c.toNat - '0'.toNat)) n

/-- A valid non-negative integer literal: one or more decimal digits. -/
def isNonNegLiteral (s : String) : Bool :=
  allDigits s.data

/-- The integer value of a non-negative integer literal. -/
def literalValue (s : String) : Int :=
  (decimalValue 0 s.data : Int)

/-- A decimal integer literal: an optional sign `+` or `-`, then one or more
decimal digits. -/
def isIntLiteral (s : String) : Bool :=
  match s.data with
  | [] => false
  | c :: cs => if c = '+' ∨ c = '-' then allDigits cs else allDigits (c :: cs)

/-- The integer value of a decimal integer literal. -/
def intLiteralValue (s : String) : Int :=
  match s.data with
  | [] => 0
  | c :: cs =>
    if c = '-' then -(decimalValue 0 cs : Int)
    else if c = '+' then (decimalValue 0 cs : Int)
    else (decimalValue 0 (c :: cs) : Int)

/-- The number of chunks of an id list of length `n`: `ceil(n/50)`. -/
def chunkCount (n : Nat) : Nat :=
  (n + 49) / 50

/-- The `k`-th chunk of an id list: `videoIDs[50k .. min(50(k+1), n))`. -/
def chunk (videoIDs : List String) (k : Nat) : List String :=
  slice videoIDs (50 * k) (min (50 * (k + 1)) videoIDs.length)

/-- The request that carries the `k`-th chunk, its ids joined with commas. -/
def chunkRequest (apiKey : String) (videoIDs : List String) (k : Nat) : VideosRequest :=
  ⟨join (chunk videoIDs k) ",", apiKey⟩

/-- The state of the details source before the request for chunk `k`, when the
chunks are requested in order from state `st`. -/
def detailsStateAt {σ : Type} (get : σ → VideosRequest → σ × HttpReply YouTubeVideoDetails)
    (apiKey : String) (videoIDs : List String) (st : σ) : Nat → σ
  | 0 => st
  | k + 1 =>
    (get (detailsStateAt get apiKey videoIDs st k) (chunkRequest apiKey videoIDs k)).1

/-- The reply the details source gives to the request for chunk `k`, when the
chunks are requested in order from state `st`. -/
def detailsReply {σ : Type} (get : σ → VideosRequest → σ × HttpReply YouTubeVideoDetails)
    (apiKey : String) (videoIDs : List String) (st : σ) (k : Nat) :
    HttpReply YouTubeVideoDetails :=
  (get (detailsStateAt get apiKey videoIDs st k) (chunkRequest apiKey videoIDs k)).2

/-- The request for chunk `k` together with the source's reply to it. -/
def detailsExchange {σ : Type} (get : σ → VideosRequest → σ × HttpReply YouTubeVideoDetails)
    (apiKey : String) (videoIDs : List String) (st : σ) (k : Nat) :
    VideosRequest × HttpReply YouTubeVideoDetails :=
  (chunkRequest apiKey videoIDs k, detailsReply get apiKey videoIDs st k)

/-- The records built from one reply of the details source, one per item of a
decoded body, in the order of the items. -/
def replyVideos : HttpReply YouTubeVideoDetails → List Video
  | .response _ _ (.ok ytResponse) => ytResponse.Items.map toVideo
  | _ => []

/-- A reply the fetch loops accept: status 200 with a body that decodes. -/
def HttpReply.accepted {α : Type} : HttpReply α → Bool
  | .response code _ (.ok _) => decide (code = statusOK)
  | _ => false

/-! ### Concrete sources -/

/-- A details source that answers every request with status 200 and one item
whose id is the request's id list and whose like count is `"abc"`; its state
counts the requests. -/
def echoDetails (st : Nat) (req : VideosRequest) : Nat × HttpReply YouTubeVideoDetails :=
  (st + 1, .response 200 "200 OK" (.ok ⟨[⟨req.id, ⟨"title", "", "", "channel", ["go"]⟩,
    ⟨"7", "abc", "", "3"⟩, ⟨["https://x/y/Music"]⟩⟩]⟩))

/-- A listing source with sufficient videos: every page holds exactly the
requested number of items and a non-empty next-page token; its state counts
the requests. -/
def fullListing (st : Nat) (req : SearchRequest) : Nat × HttpReply SearchResponse :=
  (st + 1, .response 200 "200 OK" (.ok ⟨List.replicate req.maxResults.toNat ⟨"v"⟩, "next"⟩))

/-- An id list of length 120: 50 times `a`, 50 times `b`, 20 times `c`. -/
def ids120 : List String :=
  List.replicate 50 "a" ++ List.replicate 50 "b" ++ List.replicate 20 "c"

/-- A record with the given id and view count. -/
def sampleVideo (id : String) (views : Int) : Video :=
  { ID := id, ChannelTitle := "channel", Title := "title " ++ id, Description := "",
    PublishedAt := "2020-01-01", ViewCount := views, LikeCount := 0, DislikeCount := 0,
    CommentCount := 0, Topics := ["Music", "Film"], Tags := [] }

/-- The record `sampleVideo "a" 1` as a later run sees it: a new title and 9
views. -/
def sampleUpdate : Video :=
  { sampleVideo "a" 9 with Title := "renamed" }

/-- An empty database whose third statement fails. -/
def failThird : DB :=
  { table := [], executed := [], outcome := fun n => if n = 2 then some "boom" else none }

/-- An empty database none of whose statements fails. -/
def emptyDB : DB :=
  { table := [], executed := [], outcome := fun _ => none }

/-! ## Theorems -/

/-! ### join -/

theorem splitChars_of_not_mem (sep : Char) (cs : List Char) (h : sep ∉ cs) :
    splitChars sep cs = [cs] := by
  induction cs with
  | nil => rfl
  | cons c cs ih =>
    have hc : c ≠ sep := fun e => h (e ▸ List.mem_cons_self _ _)
    have hcs : sep ∉ cs := fun e => h (List.mem_cons_of_mem _ e)
    simp [splitChars, hc, ih hcs]

theorem splitChars_of_last_sep (sep : Char) (t : List Char) (ht : sep ∉ t) :
    ∀ pre : List Char, ∃ f fs, splitChars sep (pre ++ sep :: t) = (f :: fs) ++ [t] := by
  intro pre
  induction pre with
  | nil =>
    refine ⟨[], [], ?_⟩
    simp [splitChars, splitChars_of_not_mem sep t ht]
  | cons c pre ih =>
    obtain ⟨f, fs, hf⟩ := ih
    by_cases hc : c = sep
    · refine ⟨[], f :: fs, ?_⟩
      simp [splitChars, hc, hf]
    · refine ⟨c :: f, fs, ?_⟩
      simp [splitChars, hc, hf]

theorem exists_last_sep (sep : Char) (cs : List Char) (h : sep ∈ cs) :
    ∃ pre t, cs = pre ++ sep :: t ∧ sep ∉ t := by
  induction cs with
  | nil => exact absurd h (List.not_mem_nil _)
  | cons c cs ih =>
    by_cases hcs : sep ∈ cs
    · obtain ⟨pre, t, he, ht⟩ := ih hcs
      exact ⟨c :: pre, t, by simp [he], ht⟩
    · have hc : sep = c := by
        rcases List.mem_cons.mp h with e | e
        · exact e
        · exact absurd e hcs
      exact ⟨[], cs, by simp [hc], hcs⟩

theorem extractTopicsStep_of_not_mem (result : List String) (u : String)
    (h : '/' ∉ u.data) : extractTopicsStep result u = result ++ [u] := by
  simp [extractTopicsStep, splitSlash, splitChars_of_not_mem '/' u.data h]

theorem extractTopicsStep_of_mem (result : List String) (u : String) (h : '/' ∈ u.data) :
    ∃ pre t : String, u = pre ++ "/" ++ t ∧ '/' ∉ t.data
      ∧ extractTopicsStep result u = result ++ [t] := by
  obtain ⟨pre, t, he, ht⟩ := exists_last_sep '/' u.data h
  obtain ⟨f, fs, hf⟩ := splitChars_of_last_sep '/' t ht pre
  refine ⟨⟨pre⟩, ⟨t⟩, ?_, ht, ?_⟩
  · apply String.ext
    simp [he]
  · simp [extractTopicsStep, splitSlash, he, hf, List.getD_eq_getElem?_getD]

/-- The relation between a topic-category string and the topic kept for it. -/
theorem extractTopicsStep_spec (result : List String) (u : String) :
    ∃ t : String, extractTopicsStep result u = result ++ [t]
      ∧ ('/' ∈ u.data → ∃ pre : String, u = pre ++ "/" ++ t ∧ '/' ∉ t.data)
      ∧ ('/' ∉ u.data → t = u) := by
  by_cases h : '/' ∈ u.data
  · obtain ⟨pre, t, he, ht, hs⟩ := extractTopicsStep_of_mem result u h
    exact ⟨t, hs, fun _ => ⟨pre, he, ht⟩, fun hn => absurd h hn⟩
  · exact ⟨u, extractTopicsStep_of_not_mem result u h, fun hm => absurd hm h, fun _ => rfl⟩

theorem extractTopics_foldl (input : List String) :
    ∀ acc : List String, ∃ ts : List String,
      input.foldl extractTopicsStep acc = acc ++ ts
        ∧ List.Forall₂ (fun u t =>
            ('/' ∈ u.data → ∃ pre : String, u = pre ++ "/" ++ t ∧ '/' ∉ t.data)
              ∧ ('/' ∉ u.data → t = u)) input ts := by
  induction input with
  | nil => intro acc; exact ⟨[], by simp, List.Forall₂.nil⟩
  | cons u us ih =>
    intro acc
    obtain ⟨t, hstep, hyes, hno⟩ := extractTopicsStep_spec acc u
    obtain ⟨ts, hts, hall⟩ := ih (acc ++ [t])
    refine ⟨t :: ts, ?_, List.Forall₂.cons ⟨hyes, hno⟩ hall⟩
    simp [List.foldl_cons, hstep, hts]

/-- C4: `extractTopics` keeps one string per input string, in the input's
order: the result has the input's length, and its i-th element is the part of
the i-th input after its last `/` when that input contains a `/`, and the i-th
input itself when it contains none.  `["https://x/y/Music"]` gives `["Music"]`. -/
theorem extractTopics_last_segments (input : List String) :
    (extractTopics input).length = input.length
      ∧ (∀ (i : Nat) (u : String), input[i]? = some u →
          ∃ t : String, (extractTopics input)[i]? = some t
            ∧ ('/' ∈ u.data → ∃ pre : String, u = pre ++ "/" ++ t ∧ '/' ∉ t.data)
            ∧ ('/' ∉ u.data → t = u))
      ∧ extractTopics ["https://x/y/Music"] = ["Music"] := by
  obtain ⟨ts, hts, hall⟩ := extractTopics_foldl input []
  have hts2 : extractTopics input = ts := by simpa [extractTopics] using hts
  rw [hts2]
  refine ⟨hall.length_eq.symm, ?_, by decide⟩
  intro i u hu
  obtain ⟨hlen, hget⟩ := List.forall₂_iff_get.mp hall
  have hi : i < input.length := by
    by_contra hcon
    rw [List.getElem?_eq_none (Nat.le_of_not_lt hcon)] at hu
    exact absurd hu (by simp)
  have hi2 : i < ts.length := hlen ▸ hi
  refine ⟨ts.get ⟨i, hi2⟩, by simp [List.getElem?_eq_getElem hi2], ?_⟩
  have hu2 : input.get ⟨i, hi⟩ = u := by
    rw [List.getElem?_eq_getElem hi] at hu
    exact Option.some.inj hu
  have := hget i hi hi2
  rw [hu2] at this
  exact this

/-! ### StringToInt -/

theorem digit_le_nine (c : Char) (h : '0' ≤ c ∧ c ≤ '9') : c.toNat - '0'.toNat ≤ 9 := by
  obtain ⟨_, h2⟩ := h
  have h2' : c.toNat ≤ '9'.toNat := h2
  have e9 : '9'.toNat = 57 := by decide
  have e0 : '0'.toNat = 48 := by decide
  omega

theorem decimalValue_cons (n : Nat) (c : Char) (cs : List Char) :
    decimalValue n (c :: cs) = decimalValue (n * 10 + (c.toNat - '0'.toNat)) cs := rfl

theorem le_decimalValue (cs : List Char) : ∀ n : Nat, n ≤ decimalValue n cs := by
  induction cs with
  | nil => intro n; exact Nat.le_refl n
  | cons c cs ih =>
    intro n
    rw [decimalValue_cons]
    have := ih (n * 10 + (c.toNat - '0'.toNat))
    omega

/-- The digit loop of `ParseUint` on digits only: the decimal value when it is
below `1<<64`, a range error otherwise. -/
theorem parseUintLoop_digits (cs : List Char) (hd : cs.all isDigitChar = true) :
    ∀ n : Nat, n < twoPow64 →
      parseUintLoop cs n =
        if decimalValue n cs < twoPow64 then .ok (decimalValue n cs) else .error .outOfRange := by
  induction cs with
  | nil =>
    intro n hn
    simp [parseUintLoop, decimalValue, hn]
  | cons c cs ih =>
    intro n hn
    have hc : '0' ≤ c ∧ c ≤ '9' := by
      have := (List.all_cons.symm ▸ hd : (isDigitChar c && cs.all isDigitChar) = true)
      have h1 : isDigitChar c = true := ((Bool.and_eq_true _ _).mp this).1
      simpa [isDigitChar] using h1
    have hcs : cs.all isDigitChar = true := by
      have := (List.all_cons.symm ▸ hd : (isDigitChar c && cs.all isDigitChar) = true)
      exact ((Bool.and_eq_true _ _).mp this).2
    have hd9 := digit_le_nine c hc
    have hmono := le_decimalValue cs (n * 10 + (c.toNat - '0'.toNat))
    rw [decimalValue_cons]
    simp only [parseUintLoop, if_pos hc]
    by_cases hcut : n ≥ cutoff10
    · rw [if_pos hcut]
      have : ¬ decimalValue (n * 10 + (c.toNat - '0'.toNat)) cs < twoPow64 := by
        simp only [cutoff10, twoPow64] at *
        omega
      rw [if_neg this]
    · rw [if_neg hcut]
      by_cases hov : n * 10 + (c.toNat - '0'.toNat) < twoPow64
      · have hmod : (n * 10 + (c.toNat - '0'.toNat)) % twoPow64
            = n * 10 + (c.toNat - '0'.toNat) := Nat.mod_eq_of_lt hov
        rw [hmod]
        have hno : ¬ (n * 10 + (c.toNat - '0'.toNat) < n * 10
            ∨ n * 10 + (c.toNat - '0'.toNat) > twoPow64 - 1) := by
          simp only [twoPow64] at *
          omega
        rw [if_neg hno]
        exact ih hcs _ hov
      · have hyes : ((n * 10 + (c.toNat - '0'.toNat)) % twoPow64 < n * 10
            ∨ (n * 10 + (c.toNat - '0'.toNat)) % twoPow64 > twoPow64 - 1) := by
          simp only [cutoff10, twoPow64] at *
          omega
        rw [if_pos hyes]
        have : ¬ decimalValue (n * 10 + (c.toNat - '0'.toNat)) cs < twoPow64 := by
          omega
        rw [if_neg this]

/-- The digit loop of `ParseUint` fails on any input with a non-digit. -/
theorem parseUintLoop_nondigit (cs : List Char) (hd : cs.all isDigitChar = false) :
    ∀ n : Nat, ∃ e, parseUintLoop cs n = .error e := by
  induction cs with
  | nil => simp at hd
  | cons c cs ih =>
    intro n
    simp only [parseUintLoop]
    by_cases hc : '0' ≤ c ∧ c ≤ '9'
    · rw [if_pos hc]
      have hcs : cs.all isDigitChar = false := by
        have h1 : isDigitChar c = true := by simpa [isDigitChar] using hc
        simpa [List.all_cons, h1] using hd
      by_cases hcut : n ≥ cutoff10
      · rw [if_pos hcut]; exact ⟨_, rfl⟩
      · rw [if_neg hcut]
        split
        · exact ⟨_, rfl⟩
        · exact ih hcs _
    · rw [if_neg hc]; exact ⟨_, rfl⟩

/-- What `ParseUint` returns: the decimal value of one or more digits below
`1<<64`, and an error for everything else. -/
theorem parseUint_eq (cs : List Char) :
    (allDigits cs = true ∧ decimalValue 0 cs < twoPow64
        ∧ parseUint cs = .ok (decimalValue 0 cs))
      ∨ (¬ (allDigits cs = true ∧ decimalValue 0 cs < twoPow64)
        ∧ ∃ e, parseUint cs = .error e) := by
  by_cases hnil : cs = []
  · right
    subst hnil
    exact ⟨by simp [allDigits], ⟨_, rfl⟩⟩
  · have hpu : parseUint cs = parseUintLoop cs 0 := by simp [parseUint, hnil]
    have hemp : cs.isEmpty = false := by
      cases cs with
      | nil => exact absurd rfl hnil
      | cons _ _ => rfl
    cases hd : cs.all isDigitChar with
    | true =>
      have h0 : (0 : Nat) < twoPow64 := by decide
      have hl := parseUintLoop_digits cs hd 0 h0
      by_cases hv : decimalValue 0 cs < twoPow64
      · left
        rw [if_pos hv] at hl
        exact ⟨by simp [allDigits, hemp, hd], hv, hpu.trans hl⟩
      · right
        rw [if_neg hv] at hl
        exact ⟨fun h => hv h.2, ⟨_, hpu.trans hl⟩⟩
    | false =>
      right
      obtain ⟨e, he⟩ := parseUintLoop_nondigit cs hd 0
      exact ⟨by simp [allDigits, hd], ⟨e, hpu.trans he⟩⟩

theorem StringToInt_neg_sign (cs : List Char) :
    StringToInt ⟨'-' :: cs⟩ =
      match parseUint cs with
      | .error _ => 0
      | .ok un => if un > twoPow63 then 0 else -(un : Int) := by
  simp only [StringToInt, atoi, parseInt]
  rcases h : parseUint cs with e | un
  · cases e <;> simp [h]
  · by_cases hu : un > twoPow63 <;> simp [hu, h]

theorem StringToInt_pos_sign (cs : List Char) :
    StringToInt ⟨'+' :: cs⟩ =
      match parseUint cs with
      | .error _ => 0
      | .ok un => if un ≥ twoPow63 then 0 else (un : Int) := by
  simp only [StringToInt, atoi, parseInt]
  rcases h : parseUint cs with e | un
  · cases e <;> simp [h]
  · by_cases hu : un ≥ twoPow63 <;> simp [hu, h]

theorem StringToInt_no_sign (c : Char) (cs : List Char) (hp : c ≠ '+') (hm : c ≠ '-') :
    StringToInt ⟨c :: cs⟩ =
      match parseUint (c :: cs) with
      | .error _ => 0
      | .ok un => if un ≥ twoPow63 then 0 else (un : Int) := by
  simp only [StringToInt, atoi, parseInt]
  rcases h : parseUint (c :: cs) with e | un
  · cases e <;> simp [hp, hm, h]
  · by_cases hu : un ≥ twoPow63 <;> simp [hu, hp, hm, h]

/-- What `StringToInt` returns: the value of a decimal integer literal that
fits a 64-bit `int`, and 0 for everything else. -/
theorem StringToInt_eq (s : String) :
    StringToInt s =
      if isIntLiteral s = true ∧ -(twoPow63 : Int) ≤ intLiteralValue s
          ∧ intLiteralValue s < (twoPow63 : Int)
      then intLiteralValue s else 0 := by
  obtain ⟨data⟩ := s
  cases data with
  | nil => simp [StringToInt, atoi, parseInt, isIntLiteral]
  | cons c cs =>
    by_cases hm : c = '-'
    · subst hm
      rw [StringToInt_neg_sign]
      have hlit : isIntLiteral ⟨'-' :: cs⟩ = allDigits cs := by simp [isIntLiteral]
      have hval : intLiteralValue ⟨'-' :: cs⟩ = -(decimalValue 0 cs : Int) := by
        simp [intLiteralValue]
      rw [hlit, hval]
      rcases parseUint_eq cs with ⟨hd, hv, hp⟩ | ⟨hn, e, hp⟩
      · rw [hp]
        simp only [twoPow63, twoPow64] at *
        by_cases hu : decimalValue 0 cs > 9223372036854775808
        · rw [if_pos hu, if_neg]
          intro hc
          have := hc.2.1
          omega
        · rw [if_neg hu, if_pos]
          refine ⟨hd, ?_, ?_⟩ <;> omega
      · rw [hp]
        simp only [twoPow63, twoPow64] at *
        rw [if_neg]
        intro hc
        apply hn
        refine ⟨hc.1, ?_⟩
        have := hc.2.1
        omega
    · by_cases hp : c = '+'
      · subst hp
        rw [StringToInt_pos_sign]
        have hlit : isIntLiteral ⟨'+' :: cs⟩ = allDigits cs := by simp [isIntLiteral]
        have hval : intLiteralValue ⟨'+' :: cs⟩ = (decimalValue 0 cs : Int) := by
          simp [intLiteralValue]
        rw [hlit, hval]
        rcases parseUint_eq cs with ⟨hd, hv, hp⟩ | ⟨hn, e, hp⟩
        · rw [hp]
          simp only [twoPow63, twoPow64] at *
          by_cases hu : decimalValue 0 cs ≥ 9223372036854775808
          · rw [if_pos hu, if_neg]
            intro hc
            have := hc.2.2
            omega
          · rw [if_neg hu, if_pos]
            refine ⟨hd, ?_, ?_⟩ <;> omega
        · rw [hp]
          simp only [twoPow63, twoPow64] at *
          rw [if_neg]
          intro hc
          apply hn
          refine ⟨hc.1, ?_⟩
          have := hc.2.2
          omega
      · rw [StringToInt_no_sign c cs hp hm]
        have hlit : isIntLiteral ⟨c :: cs⟩ = allDigits (c :: cs) := by
          simp [isIntLiteral, hp, hm]
        have hval : intLiteralValue ⟨c :: cs⟩ = (decimalValue 0 (c :: cs) : Int) := by
          simp [intLiteralValue, hp, hm]
        rw [hlit, hval]
        rcases parseUint_eq (c :: cs) with ⟨hd, hv, hp⟩ | ⟨hn, e, hp⟩
        · rw [hp]
          simp only [twoPow63, twoPow64] at *
          by_cases hu : decimalValue 0 (c :: cs) ≥ 9223372036854775808
          · rw [if_pos hu, if_neg]
            intro hc
            have := hc.2.2
            omega
          · rw [if_neg hu, if_pos]
            refine ⟨hd, ?_, ?_⟩ <;> omega
        · rw [hp]
          simp only [twoPow63, twoPow64] at *
          rw [if_neg]
          intro hc
          apply hn
          refine ⟨hc.1, ?_⟩
          have := hc.2.2
          omega

theorem intLiteralValue_nonneg (s : String) (h : s.data.head? ≠ some '-') :
    0 ≤ intLiteralValue s := by
  obtain ⟨data⟩ := s
  cases data with
  | nil => simp [intLiteralValue]
  | cons c cs =>
    have hm : c ≠ '-' := fun e => h (by simp [e])
    by_cases hp : c = '+'
    · simp [intLiteralValue, hp]
    · simp only [intLiteralValue, if_neg hm, if_neg hp]
      exact Int.ofNat_nonneg _

theorem nonNegLiteral_is_intLiteral (s : String) (h : isNonNegLiteral s = true) :
    isIntLiteral s = true ∧ intLiteralValue s = literalValue s := by
  obtain ⟨data⟩ := s
  cases data with
  | nil => simp [isNonNegLiteral, allDigits] at h
  | cons c cs =>
    have hc : isDigitChar c = true := by
      simp only [isNonNegLiteral, allDigits, List.all_cons, Bool.and_eq_true] at h
      exact h.2.1
    have hp : c ≠ '+' := by
      intro e; subst e; exact absurd hc (by decide)
    have hm : c ≠ '-' := by
      intro e; subst e; exact absurd hc (by decide)
    refine ⟨?_, ?_⟩
    · simpa [isIntLiteral, hp, hm, isNonNegLiteral] using h
    · simp [intLiteralValue, literalValue, hp, hm]

/-- C3, as the code has it: `StringToInt(s)` is the integer value of `s` when
`s` is a decimal integer literal (an optional `+` or `-`, then one or more
digits) whose value fits a 64-bit `int`, and 0 for every other string.  So a
non-negative literal below `1<<63` gives its value, a string that does not
start with `-` never gives a negative number, the four counts of a record are
`StringToInt` of the four statistics strings, and `"abc"` gives 0. -/
theorem StringToInt_spec (s : String) :
    (StringToInt s =
        if isIntLiteral s = true ∧ -(twoPow63 : Int) ≤ intLiteralValue s
            ∧ intLiteralValue s < (twoPow63 : Int)
        then intLiteralValue s else 0)
      ∧ (isNonNegLiteral s = true → literalValue s < (twoPow63 : Int) →
          StringToInt s = literalValue s)
      ∧ (s.data.head? ≠ some '-' → 0 ≤ StringToInt s)
      ∧ (∀ item : DetailsItem,
          (toVideo item).ViewCount = StringToInt item.Statistics.ViewCount
            ∧ (toVideo item).LikeCount = StringToInt item.Statistics.LikeCount
            ∧ (toVideo item).DislikeCount = StringToInt item.Statistics.DislikeCount
            ∧ (toVideo item).CommentCount = StringToInt item.Statistics.CommentCount)
      ∧ StringToInt "abc" = 0 := by
  refine ⟨StringToInt_eq s, ?_, ?_, fun _ => ⟨rfl, rfl, rfl, rfl⟩, by decide⟩
  · intro hlit hlt
    obtain ⟨h1, h2⟩ := nonNegLiteral_is_intLiteral s hlit
    rw [StringToInt_eq, if_pos, h2]
    refine ⟨h1, ?_, h2 ▸ hlt⟩
    rw [h2]
    have : (0 : Int) ≤ literalValue s := Int.ofNat_nonneg _
    have h63 : (0 : Int) ≤ (twoPow63 : Int) := Int.ofNat_nonneg _
    omega
  · intro hhead
    rw [StringToInt_eq]
    split
    · exact intLiteralValue_nonneg s hhead
    · exact le_refl 0

/-- C3 fails as stated: `"-5"` is not a non-negative integer literal, yet
`StringToInt` gives -5 for it, not 0, and the result is negative; and
`"9223372036854775808"` is a non-negative integer literal whose value
`StringToInt` does not give. -/
theorem StringToInt_negative_literal :
    isNonNegLiteral "-5" = false
      ∧ StringToInt "-5" = -5
      ∧ StringToInt "-5" ≠ (if isNonNegLiteral "-5" = true then literalValue "-5" else 0)
      ∧ ¬ (0 ≤ StringToInt "-5")
      ∧ isNonNegLiteral "9223372036854775808" = true
      ∧ literalValue "9223372036854775808" = 9223372036854775808
      ∧ StringToInt "9223372036854775808" = 0 := by
  decide

/-- C3 at concrete strings: the literal `"42"` gives 42, and `"+7"`, which
does not start with `-`, gives a non-negative number. -/
theorem StringToInt_spec_witness :
    (isNonNegLiteral "42" = true ∧ literalValue "42" < (twoPow63 : Int)
        ∧ StringToInt "42" = literalValue "42")
      ∧ ("+7".data.head? ≠ some '-' ∧ 0 ≤ StringToInt "+7") :=
  ⟨⟨by decide, by decide, (StringToInt_spec "42").2.1 (by decide) (by decide)⟩,
    ⟨by decide, (StringToInt_spec "+7").2.2.1 (by decide)⟩⟩

/-! ### fetchVideoDetails -/

theorem chunk_eq_take_drop (videoIDs : List String) (k : Nat) :
    chunk videoIDs k = (videoIDs.drop (50 * k)).take 50 := by
  unfold chunk slice
  rw [List.take_eq_take, List.length_drop]
  omega

theorem flatMap_chunks (videoIDs : List String) (m : Nat) :
    (List.range m).flatMap (chunk videoIDs) = videoIDs.take (50 * m) := by
  induction m with
  | zero => simp
  | succ m ih =>
    rw [List.range_succ, List.flatMap_append, ih]
    simp only [List.flatMap_cons, List.flatMap_nil, List.append_nil]
    rw [chunk_eq_take_drop, show 50 * (m + 1) = 50 * m + 50 by ring, List.take_add]

theorem chunk_length (videoIDs : List String) (k : Nat) :
    (chunk videoIDs k).length = min 50 (videoIDs.length - 50 * k) := by
  rw [chunk_eq_take_drop, List.length_take, List.length_drop]

theorem detailsStateAt_step {σ : Type}
    (get : σ → VideosRequest → σ × HttpReply YouTubeVideoDetails)
    (apiKey : String) (videoIDs : List String) (st : σ) (k : Nat) :
    get (detailsStateAt get apiKey videoIDs st k) (chunkRequest apiKey videoIDs k)
      = (detailsStateAt get apiKey videoIDs st (k + 1),
          detailsReply get apiKey videoIDs st k) := rfl

theorem accepted_iff {α : Type} (reply : HttpReply α) :
    reply.accepted = true ↔ ∃ status body, reply = .response statusOK status (.ok body) := by
  constructor
  · intro h
    cases reply with
    | transportError err => simp [HttpReply.accepted] at h
    | response code status body =>
      cases body with
      | error err => simp [HttpReply.accepted] at h
      | ok b =>
        have hc : code = statusOK := by simpa [HttpReply.accepted] using h
        exact ⟨status, b, by rw [hc]⟩
  · rintro ⟨status, body, rfl⟩
    simp [HttpReply.accepted]

/-- The loop of `fetchVideoDetails` started at chunk `k` on the source's state
for that chunk, with enough fuel, when the source accepts the requests for the
chunks from `k` on: it returns, having exchanged exactly those requests with
the source, in order, and its records are the ones it was given followed by
those of the source's replies, in order. -/
theorem fetchVideoDetailsLoop_accepted {σ : Type}
    (get : σ → VideosRequest → σ × HttpReply YouTubeVideoDetails)
    (apiKey : String) (videoIDs : List String) (st : σ) :
    ∀ (fuel : Nat) (log : List (VideosRequest × HttpReply YouTubeVideoDetails))
      (videos : List Video) (k : Nat),
      k ≤ chunkCount videoIDs.length →
      chunkCount videoIDs.length - k + 1 ≤ fuel →
      (∀ j, k ≤ j → j < chunkCount videoIDs.length →
        (detailsReply get apiKey videoIDs st j).accepted = true) →
      fetchVideoDetailsLoop get apiKey videoIDs fuel (detailsStateAt get apiKey videoIDs st k)
          log videos (50 * k)
        = some ⟨detailsStateAt get apiKey videoIDs st (chunkCount videoIDs.length),
            log ++ (List.range' k (chunkCount videoIDs.length - k)).map
              (detailsExchange get apiKey videoIDs st),
            .ok (videos ++ (List.range' k (chunkCount videoIDs.length - k)).flatMap
              (fun j => replyVideos (detailsReply get apiKey videoIDs st j)))⟩ := by
  intro fuel
  induction fuel with
  | zero => intro log videos k _ h; omega
  | succ fuel ih =>
    intro log videos k hk hfuel hacc
    simp only [fetchVideoDetailsLoop]
    by_cases hi : 50 * k < videoIDs.length
    · rw [if_pos hi]
      have hcount : k < chunkCount videoIDs.length := by unfold chunkCount; omega
      have hreq : (⟨join (slice videoIDs (50 * k)
            (if 50 * k + 50 > videoIDs.length then videoIDs.length else 50 * k + 50)) ",",
            apiKey⟩ : VideosRequest) = chunkRequest apiKey videoIDs k := by
        unfold chunkRequest chunk
        congr 3
        split <;> omega
      rw [hreq, detailsStateAt_step get apiKey videoIDs st k]
      obtain ⟨status, body, hreply⟩ := (accepted_iff _).mp (hacc k (Nat.le_refl k) hcount)
      have hex : detailsExchange get apiKey videoIDs st k
          = (chunkRequest apiKey videoIDs k, .response statusOK status (.ok body)) := by
        rw [detailsExchange, hreply]
      have hsplit : chunkCount videoIDs.length - k
          = (chunkCount videoIDs.length - (k + 1)) + 1 := by omega
      rw [hreply]
      simp only [ne_eq, not_true_eq_false, if_false]
      rw [show 50 * k + 50 = 50 * (k + 1) by ring,
        ih _ _ (k + 1) hcount (by omega) (fun j hj hj2 => hacc j (by omega) hj2),
        hsplit, List.range'_succ]
      simp [hex, hreply, replyVideos]
    · rw [if_neg hi]
      have hcount : chunkCount videoIDs.length = k := by
        unfold chunkCount at hk ⊢
        omega
      simp [hcount]

/-- `fetchVideoDetails` against a source that accepts the request for every
chunk: the run, in full. -/
theorem fetchVideoDetails_accepted {σ : Type}
    (get : σ → VideosRequest → σ × HttpReply YouTubeVideoDetails) (st : σ)
    (apiKey : String) (videoIDs : List String)
    (hacc : ∀ k, k < chunkCount videoIDs.length →
      (detailsReply get apiKey videoIDs st k).accepted = true) :
    fetchVideoDetails get st apiKey videoIDs
      = some ⟨detailsStateAt get apiKey videoIDs st (chunkCount videoIDs.length),
          (List.range (chunkCount videoIDs.length)).map
            (detailsExchange get apiKey videoIDs st),
          .ok ((List.range (chunkCount videoIDs.length)).flatMap
            (fun k => replyVideos (detailsReply get apiKey videoIDs st k)))⟩ := by
  have hfuel : chunkCount videoIDs.length - 0 + 1 ≤ videoIDs.length + 1 := by
    unfold chunkCount; omega
  have h := fetchVideoDetailsLoop_accepted get apiKey videoIDs st (videoIDs.length + 1) [] [] 0
    (Nat.zero_le _) hfuel (fun j _ hj => hacc j hj)
  simp only [List.nil_append, Nat.sub_zero, Nat.mul_zero, ← List.range_eq_range'] at h
  exact h

/-- C2: when the source accepts the request for every chunk (no request
fails), `fetchVideoDetails` returns records after exchanging with the source
exactly `ceil(n/50)` requests (the least `c` with `n <= 50c`), in order, the
k-th carrying the slice `ids[50k .. min(50(k+1), n))` joined with commas and
answered by the source's reply to it.  Every chunk but the last has 50 ids,
the last has between 1 and 50, and the chunks concatenated are the id list.
For 120 ids the run issues 3 requests, carrying 50, 50 and 20 ids. -/
theorem fetchVideoDetails_chunked_requests {σ : Type}
    (get : σ → VideosRequest → σ × HttpReply YouTubeVideoDetails) (st : σ)
    (apiKey : String) (videoIDs : List String)
    (hacc : ∀ k, k < chunkCount videoIDs.length →
      (detailsReply get apiKey videoIDs st k).accepted = true) :
    ∃ out vs, fetchVideoDetails get st apiKey videoIDs = some out
      ∧ out.result = .ok vs
      ∧ out.exchanges =
          (List.range (chunkCount videoIDs.length)).map (fun k =>
            ((⟨join (slice videoIDs (50 * k) (min (50 * (k + 1)) videoIDs.length)) ",",
                apiKey⟩ : VideosRequest),
              detailsReply get apiKey videoIDs st k))
      ∧ out.requests.length = chunkCount videoIDs.length
      ∧ out.requests =
          (List.range (chunkCount videoIDs.length)).map (fun k =>
            (⟨join (slice videoIDs (50 * k) (min (50 * (k + 1)) videoIDs.length)) ",",
              apiKey⟩ : VideosRequest))
      ∧ (videoIDs.length ≤ 50 * chunkCount videoIDs.length
          ∧ 50 * chunkCount videoIDs.length < videoIDs.length + 50)
      ∧ (∀ k, k + 1 < chunkCount videoIDs.length → (chunk videoIDs k).length = 50)
      ∧ (∀ k, k + 1 = chunkCount videoIDs.length →
          0 < (chunk videoIDs k).length ∧ (chunk videoIDs k).length ≤ 50)
      ∧ (List.range (chunkCount videoIDs.length)).flatMap (chunk videoIDs) = videoIDs
      ∧ (videoIDs.length = 120 →
          out.requests =
              [⟨join (slice videoIDs 0 50) ",", apiKey⟩,
                ⟨join (slice videoIDs 50 100) ",", apiKey⟩,
                ⟨join (slice videoIDs 100 120) ",", apiKey⟩]
            ∧ (slice videoIDs 0 50).length = 50
            ∧ (slice videoIDs 50 100).length = 50
            ∧ (slice videoIDs 100 120).length = 20) := by
  have hrun := fetchVideoDetails_accepted get st apiKey videoIDs hacc
  have hreqs : (List.range (chunkCount videoIDs.length)).map
        (fun k => (detailsExchange get apiKey videoIDs st k).1)
      = (List.range (chunkCount videoIDs.length)).map (fun k =>
          (⟨join (slice videoIDs (50 * k) (min (50 * (k + 1)) videoIDs.length)) ",",
            apiKey⟩ : VideosRequest)) := rfl
  refine ⟨_, _, hrun, rfl, rfl, ?_, ?_, ?_, ?_, ?_, ?_, ?_⟩
  · simp [Run.requests]
  · simp only [Run.requests, List.map_map]
    exact hreqs
  · unfold chunkCount
    omega
  · intro k hk
    rw [chunk_length]
    unfold chunkCount at hk
    omega
  · intro k hk
    rw [chunk_length]
    unfold chunkCount at hk
    omega
  · rw [flatMap_chunks]
    apply List.take_of_length_le
    unfold chunkCount
    omega
  · intro h120
    have hc : chunkCount videoIDs.length = 3 := by rw [h120]; rfl
    refine ⟨?_, ?_, ?_, ?_⟩
    · simp only [Run.requests, List.map_map]
      refine hreqs.trans ?_
      rw [hc]
      simp [List.range_succ, h120]
    · simp [slice, h120]
    · simp [slice, h120]
    · simp [slice, h120]

/-- C2 on 120 ids against a source that accepts every request: three
requests, carrying the first 50, the next 50 and the last 20 ids. -/
theorem fetchVideoDetails_chunked_requests_witness :
    ∃ out vs, fetchVideoDetails echoDetails 0 "key" ids120 = some out
      ∧ out.result = .ok vs
      ∧ out.requests.length = 3
      ∧ out.requests =
          [⟨join (List.replicate 50 "a") ",", "key"⟩,
            ⟨join (List.replicate 50 "b") ",", "key"⟩,
            ⟨join (List.replicate 20 "c") ",", "key"⟩] := by
  obtain ⟨out, vs, hrun, hok, _, hlen, _, _, _, _, _, h120⟩ :=
    fetchVideoDetails_chunked_requests echoDetails 0 "key" ids120 (fun _ _ => rfl)
  refine ⟨out, vs, hrun, hok, hlen, ?_⟩
  rw [(h120 rfl).1]
  rfl

/-- C6: when the source accepts the request for every chunk, `fetchVideoDetails`
returns exactly the concatenation, in chunk order, of the records built one
per item, in item order, from the source's reply to each chunk's request; the
run leaves the source in the state after those requests and has exchanged
nothing else with it.  On the empty id list it returns no records without any
request. -/
theorem fetchVideoDetails_concatenates {σ : Type}
    (get : σ → VideosRequest → σ × HttpReply YouTubeVideoDetails) (st : σ)
    (apiKey : String) (videoIDs : List String)
    (hacc : ∀ k, k < chunkCount videoIDs.length →
      (detailsReply get apiKey videoIDs st k).accepted = true) :
    fetchVideoDetails get st apiKey videoIDs
        = some ⟨detailsStateAt get apiKey videoIDs st (chunkCount videoIDs.length),
            (List.range (chunkCount videoIDs.length)).map (fun k =>
              (chunkRequest apiKey videoIDs k, detailsReply get apiKey videoIDs st k)),
            .ok ((List.range (chunkCount videoIDs.length)).flatMap (fun k =>
              match detailsReply get apiKey videoIDs st k with
              | .response _ _ (.ok ytResponse) => ytResponse.Items.map toVideo
              | _ => []))⟩
      ∧ (∀ k, k < chunkCount videoIDs.length → ∃ status ytResponse,
          detailsReply get apiKey videoIDs st k = .response statusOK status (.ok ytResponse))
      ∧ fetchVideoDetails get st apiKey [] = some ⟨st, [], .ok []⟩ := by
  refine ⟨?_, fun k hk => (accepted_iff _).mp (hacc k hk), rfl⟩
  rw [fetchVideoDetails_accepted get st apiKey videoIDs hacc]
  rfl

/-- C6 on 51 ids against a source that accepts every request: two replies,
and the record of the first chunk's reply comes before the second's. -/
theorem fetchVideoDetails_concatenates_witness :
    ∃ out vs, fetchVideoDetails echoDetails 0 "key" (List.replicate 50 "a" ++ ["b"]) = some out
      ∧ out.result = .ok vs
      ∧ out.exchanges.length = 2
      ∧ vs.map Video.ID = [join (List.replicate 50 "a") ",", "b"] :=
  ⟨_, _,
    (fetchVideoDetails_concatenates echoDetails 0 "key" (List.replicate 50 "a" ++ ["b"])
      (fun _ _ => rfl)).1,
    rfl, rfl, rfl⟩

/-- The loop of `fetchChannelVideos` keeps the ids within `maxVideoCount` when
it starts with `countSoFar` ids and no page is longer than requested. -/
theorem fetchChannelVideosLoop_bound {σ : Type}
    (get : σ → SearchRequest → σ × HttpReply SearchResponse)
    (apiKey channelID : String) (maxVideoCount : Int)
    (hsrc : ∀ st req st2 status page,
      get st req = (st2, .response statusOK status (.ok page)) →
        page.Items.length ≤ req.maxResults.toNat) :
    ∀ (fuel : Nat) (st : σ) (log : List (SearchRequest × HttpReply SearchResponse))
      (videoIDs : List String) (pageToken : String) (batchSize countSoFar : Int)
      (out : Run σ SearchRequest SearchResponse (List String)) (ids : List String),
      (videoIDs.length : Int) = countSoFar → countSoFar ≤ maxVideoCount →
      fetchChannelVideosLoop get apiKey channelID maxVideoCount fuel st log videoIDs pageToken
        batchSize countSoFar = some out →
      out.result = .ok ids → (ids.length : Int) ≤ maxVideoCount := by
  intro fuel
  induction fuel with
  | zero =>
    intro st log videoIDs pageToken batchSize countSoFar out ids _ _ hrun
    simp [fetchChannelVideosLoop] at hrun
  | succ fuel ih =>
    intro st log videoIDs pageToken batchSize countSoFar out ids hlen hle hrun hok
    simp only [fetchChannelVideosLoop] at hrun
    rcases hget : get st ⟨channelID, apiKey,
        if countSoFar + batchSize > maxVideoCount then maxVideoCount - countSoFar else batchSize,
        pageToken⟩ with ⟨st2, reply⟩
    rw [hget] at hrun
    cases reply with
    | transportError err =>
      simp only [Option.some.injEq] at hrun
      subst hrun
      simp at hok
    | response code status body =>
      simp only [] at hrun
      by_cases hcode : code ≠ statusOK
      · rw [if_pos hcode] at hrun
        simp only [Option.some.injEq] at hrun
        subst hrun
        simp at hok
      · rw [if_neg hcode] at hrun
        have hc : code = statusOK := not_not.mp hcode
        subst hc
        cases body with
        | error err =>
          simp only [Option.some.injEq] at hrun
          subst hrun
          simp at hok
        | ok page =>
          simp only [] at hrun
          have hpage := hsrc _ _ _ _ _ hget
          simp only [] at hpage
          have hnew : ((videoIDs ++ page.Items.map (fun item => item.VideoID)).length : Int)
              = countSoFar + page.Items.length := by
            simp [hlen]
          have hbound : countSoFar + (page.Items.length : Int) ≤ maxVideoCount := by
            split at hpage <;> omega
          split at hrun
          · simp only [Option.some.injEq] at hrun
            subst hrun
            simp only [Except.ok.injEq] at hok
            subst hok
            rw [hnew]
            exact hbound
          · exact ih _ _ _ _ _ _ out ids hnew hbound hrun hok

/-- C1: for `maxCount >= 0` and a listing source none of whose pages holds
more items than the request's `maxResults`, a run of `fetchChannelVideos` that
returns ids returns at most `maxCount` of them. -/
theorem fetchChannelVideos_at_most_maxCount {σ : Type}
    (get : σ → SearchRequest → σ × HttpReply SearchResponse) (st : σ)
    (apiKey channelID : String) (maxCount : Int) (fuel : Nat)
    (out : Run σ SearchRequest SearchResponse (List String)) (ids : List String)
    (hmax : 0 ≤ maxCount)
    (hsrc : ∀ st req st2 status page,
      get st req = (st2, .response statusOK status (.ok page)) →
        page.Items.length ≤ req.maxResults.toNat)
    (hrun : fetchChannelVideos get st apiKey channelID maxCount fuel = some out)
    (hok : out.result = .ok ids) :
    (ids.length : Int) ≤ maxCount :=
  fetchChannelVideosLoop_bound get apiKey channelID maxCount hsrc fuel st [] [] "" _ 0 out ids
    rfl hmax hrun hok

theorem fullListing_page_le (st : Nat) (req : SearchRequest) (st2 : Nat) (status : String)
    (page : SearchResponse)
    (h : fullListing st req = (st2, .response statusOK status (.ok page))) :
    page.Items.length ≤ req.maxResults.toNat := by
  simp only [fullListing, Prod.mk.injEq, HttpReply.response.injEq, Except.ok.injEq] at h
  obtain ⟨_, _, _, h4⟩ := h
  subst h4
  simp

/-- C1 at `maxCount = 7` against the source with sufficient videos: the run
returns, with 7 ids. -/
theorem fetchChannelVideos_at_most_maxCount_witness :
    ∃ out ids, fetchChannelVideos fullListing 0 "key" "channel" 7 5 = some out
      ∧ out.result = .ok ids ∧ ids.length = 7 ∧ (ids.length : Int) ≤ 7 :=
  ⟨_, _, rfl, rfl, rfl,
    fetchChannelVideos_at_most_maxCount fullListing 0 "key" "channel" 7 5 _ _ (by decide)
      fullListing_page_le rfl rfl⟩

/-- One iteration of the loop of `fetchChannelVideos` on an accepted page. -/
theorem fetchChannelVideosLoop_step {σ : Type}
    (get : σ → SearchRequest → σ × HttpReply SearchResponse)
    (apiKey channelID : String) (maxVideoCount : Int) (fuel : Nat) (st st2 : σ)
    (log : List (SearchRequest × HttpReply SearchResponse)) (videoIDs : List String)
    (pageToken status : String) (batchSize countSoFar requested : Int) (page : SearchResponse)
    (hreq : requested =
      if countSoFar + batchSize > maxVideoCount then maxVideoCount - countSoFar else batchSize)
    (hget : get st ⟨channelID, apiKey, requested, pageToken⟩
      = (st2, .response statusOK status (.ok page))) :
    fetchChannelVideosLoop get apiKey channelID maxVideoCount (fuel + 1) st log videoIDs
        pageToken batchSize countSoFar =
      if page.NextPageToken = "" ∨ countSoFar ≥ maxVideoCount then
        some ⟨st2,
          log ++ [(⟨channelID, apiKey, requested, pageToken⟩,
            .response statusOK status (.ok page))],
          .ok (videoIDs ++ page.Items.map (fun item => item.VideoID))⟩
      else
        fetchChannelVideosLoop get apiKey channelID maxVideoCount fuel st2
          (log ++ [(⟨channelID, apiKey, requested, pageToken⟩,
            .response statusOK status (.ok page))])
          (videoIDs ++ page.Items.map (fun item => item.VideoID)) page.NextPageToken requested
          (countSoFar + page.Items.length) := by
  subst hreq
  simp only [fetchChannelVideosLoop]
  rw [hget]
  simp

/-- C7, as the code has it: with `maxCount = 120` and a listing source with
sufficient videos, `fetchChannelVideos` issues four page requests, of sizes
50, 50, 20 and 0, and then returns the 120 ids: the test `countSoFar >=
maxVideoCount` runs before `countSoFar` takes in the page just read, so the
loop asks for one more page, of size 0, after the third. -/
theorem fetchChannelVideos_120_requests {σ : Type}
    (get : σ → SearchRequest → σ × HttpReply SearchResponse) (st : σ)
    (apiKey channelID : String) (fuel : Nat)
    (hsrc : ∀ st req, ∃ st2 status page,
      get st req = (st2, .response statusOK status (.ok page))
        ∧ page.Items.length = req.maxResults.toNat ∧ page.NextPageToken ≠ "")
    (hfuel : 4 ≤ fuel) :
    ∃ out ids, fetchChannelVideos get st apiKey channelID 120 fuel = some out
      ∧ out.result = .ok ids
      ∧ out.requests.map (fun req => req.maxResults) = [50, 50, 20, 0]
      ∧ ids.length = 120 := by
  obtain ⟨f, rfl⟩ : ∃ f, fuel = f + 4 := ⟨fuel - 4, by omega⟩
  obtain ⟨st1, s1, p1, h1, l1, t1⟩ := hsrc st ⟨channelID, apiKey, 50, ""⟩
  obtain ⟨st2, s2, p2, h2, l2, t2⟩ := hsrc st1 ⟨channelID, apiKey, 50, p1.NextPageToken⟩
  obtain ⟨st3, s3, p3, h3, l3, t3⟩ := hsrc st2 ⟨channelID, apiKey, 20, p2.NextPageToken⟩
  obtain ⟨st4, s4, p4, h4, l4, t4⟩ := hsrc st3 ⟨channelID, apiKey, 0, p3.NextPageToken⟩
  simp only [] at l1 l2 l3 l4
  have e1 : (p1.Items.length : Int) = 50 := by rw [l1]; rfl
  have e2 : (p2.Items.length : Int) = 50 := by rw [l2]; rfl
  have e3 : (p3.Items.length : Int) = 20 := by rw [l3]; rfl
  have r1 : fetchChannelVideos get st apiKey channelID 120 (f + 4)
      = fetchChannelVideosLoop get apiKey channelID 120 (f + 3 + 1) st [] [] "" 50 0 := rfl
  rw [r1, fetchChannelVideosLoop_step get apiKey channelID 120 (f + 3) st st1 [] [] "" s1 50 0 50
    p1 (by decide) h1]
  rw [if_neg (by simp [t1])]
  rw [fetchChannelVideosLoop_step get apiKey channelID 120 (f + 2) st1 st2 _ _ _ s2 50 _ 50
    p2 (by rw [e1]; decide) h2]
  rw [if_neg (by rw [e1]; simp [t2])]
  rw [fetchChannelVideosLoop_step get apiKey channelID 120 (f + 1) st2 st3 _ _ _ s3 50 _ 20
    p3 (by rw [e1, e2]; decide) h3]
  rw [if_neg (by rw [e1, e2]; simp [t3])]
  rw [fetchChannelVideosLoop_step get apiKey channelID 120 f st3 st4 _ _ _ s4 20 _ 0
    p4 (by rw [e1, e2, e3]; decide) h4]
  rw [if_pos (Or.inr (by rw [e1, e2, e3]; decide))]
  refine ⟨_, _, rfl, rfl, ?_, ?_⟩
  · simp [Run.requests]
  · simp [l1, l2, l3, l4]

/-- C7 against the concrete source with sufficient videos: four requests, the
last of size 0. -/
theorem fetchChannelVideos_120_requests_witness :
    ∃ out ids, fetchChannelVideos fullListing 0 "key" "channel" 120 10 = some out
      ∧ out.result = .ok ids
      ∧ out.requests.map (fun req => req.maxResults) = [50, 50, 20, 0]
      ∧ out.requests.length = 4
      ∧ ids.length = 120 := by
  obtain ⟨out, ids, hrun, hok, hreqs, hlen⟩ :=
    fetchChannelVideos_120_requests fullListing 0 "key" "channel" 10
      (fun st req => ⟨_, _, _, rfl, by simp, by simp⟩) (by decide)
  refine ⟨out, ids, hrun, hok, hreqs, ?_, hlen⟩
  have := congrArg List.length hreqs
  simpa using this

/-! ### writeToPostgres -/

theorem writeToPostgres_nil (db : DB) : writeToPostgres [] db = (db, .ok ()) := rfl

theorem writeToPostgres_cons_ok (video : Video) (rest : List Video) (db : DB)
    (h : db.outcome db.executed.length = none) :
    writeToPostgres (video :: rest) db =
      writeToPostgres rest
        { db with table := upsert db.table (execArgs video),
                  executed := db.executed ++ [execArgs video] } := by
  simp [writeToPostgres, DB.exec, h]

theorem writeToPostgres_cons_error (video : Video) (rest : List Video) (db : DB) (err : String)
    (h : db.outcome db.executed.length = some err) :
    writeToPostgres (video :: rest) db =
      ({ db with executed := db.executed ++ [execArgs video] },
        .error ("failed to insert video: " ++ err)) := by
  simp [writeToPostgres, DB.exec, h]

/-- A run of `writeToPostgres` in which no statement fails: every statement is
issued, in order, and the table is the upserts applied in order. -/
theorem writeToPostgres_all_ok (videos : List Video) :
    ∀ db : DB, (∀ j, j < videos.length → db.outcome (db.executed.length + j) = none) →
      writeToPostgres videos db =
        ({ db with table := (videos.map execArgs).foldl upsert db.table,
                   executed := db.executed ++ videos.map execArgs }, .ok ()) := by
  induction videos with
  | nil => intro db _; simp [writeToPostgres]
  | cons video rest ih =>
    intro db h
    have h0 : db.outcome db.executed.length = none := by
      simpa using h 0 (by simp)
    rw [writeToPostgres_cons_ok video rest db h0, ih]
    · simp
    · intro j hj
      have := h (j + 1) (by simpa using hj)
      simpa [Nat.add_assoc, Nat.add_comm 1 j] using this

/-- A run of `writeToPostgres` whose statement `k` is the first to fail:
`k + 1` statements are issued, the table holds the first `k` upserts, and the
driver's error is returned wrapped. -/
theorem writeToPostgres_fails_at (videos : List Video) :
    ∀ (db : DB) (k : Nat) (err : String), k < videos.length →
      (∀ j, j < k → db.outcome (db.executed.length + j) = none) →
      db.outcome (db.executed.length + k) = some err →
      writeToPostgres videos db =
        ({ db with table := ((videos.take k).map execArgs).foldl upsert db.table,
                   executed := db.executed ++ (videos.take (k + 1)).map execArgs },
          .error ("failed to insert video: " ++ err)) := by
  induction videos with
  | nil => intro db k err hk; simp at hk
  | cons video rest ih =>
    intro db k err hk hbefore hat
    cases k with
    | zero =>
      rw [writeToPostgres_cons_error video rest db err (by simpa using hat)]
      simp
    | succ k =>
      have h0 : db.outcome db.executed.length = none := by
        simpa using hbefore 0 (Nat.succ_pos k)
      rw [writeToPostgres_cons_ok video rest db h0,
        ih _ k err (by simpa using hk)]
      · simp
      · intro j hj
        have := hbefore (j + 1) (by omega)
        simpa [Nat.add_assoc, Nat.add_comm 1 j] using this
      · simpa [Nat.add_assoc, Nat.add_comm 1 k] using hat

/-- C8: `writeToPostgres` issues one statement per record in list order.  It
returns success exactly when no statement fails, and then all statements were
issued and the table is the upserts of all records applied in order.  If the
statement for the record at index `k` is the first to fail, it returns an
error after exactly `k + 1` statements, those for the first `k + 1` records,
and the table is the upserts of the first `k` records applied in order to the
table it started from: the later records are not written and the earlier ones
stay, which is the table persisting the first `k` records alone leaves. -/
theorem writeToPostgres_first_failure (videos : List Video) (db : DB) :
    ((writeToPostgres videos db).2 = .ok () ↔
        ∀ j, j < videos.length → db.outcome (db.executed.length + j) = none)
      ∧ ((writeToPostgres videos db).2 = .ok () →
          (writeToPostgres videos db).1.executed = db.executed ++ videos.map execArgs
            ∧ (writeToPostgres videos db).1.table
                = (videos.map execArgs).foldl upsert db.table)
      ∧ (∀ k err, k < videos.length →
          (∀ j, j < k → db.outcome (db.executed.length + j) = none) →
          db.outcome (db.executed.length + k) = some err →
          (writeToPostgres videos db).2 = .error ("failed to insert video: " ++ err)
            ∧ (writeToPostgres videos db).1.executed
                = db.executed ++ (videos.take (k + 1)).map execArgs
            ∧ (writeToPostgres videos db).1.executed.length = db.executed.length + (k + 1)
            ∧ (writeToPostgres videos db).1.table
                = ((videos.take k).map execArgs).foldl upsert db.table
            ∧ writeToPostgres (videos.take k) db
                = ({ db with table := ((videos.take k).map execArgs).foldl upsert db.table,
                             executed := db.executed ++ (videos.take k).map execArgs },
                    .ok ())
            ∧ (writeToPostgres (videos.take k) db).2 = .ok ()
            ∧ (writeToPostgres videos db).1.table
                = (writeToPostgres (videos.take k) db).1.table) := by
  have hfail : ∀ k err, k < videos.length →
      (∀ j, j < k → db.outcome (db.executed.length + j) = none) →
      db.outcome (db.executed.length + k) = some err →
      (writeToPostgres videos db).2 = .error ("failed to insert video: " ++ err)
        ∧ (writeToPostgres videos db).1.executed
            = db.executed ++ (videos.take (k + 1)).map execArgs
        ∧ (writeToPostgres videos db).1.executed.length = db.executed.length + (k + 1)
        ∧ (writeToPostgres videos db).1.table
            = ((videos.take k).map execArgs).foldl upsert db.table
        ∧ writeToPostgres (videos.take k) db
            = ({ db with table := ((videos.take k).map execArgs).foldl upsert db.table,
                         executed := db.executed ++ (videos.take k).map execArgs },
                .ok ())
        ∧ (writeToPostgres (videos.take k) db).2 = .ok ()
        ∧ (writeToPostgres videos db).1.table
            = (writeToPostgres (videos.take k) db).1.table := by
    intro k err hk hbefore hat
    have htake : ∀ j, j < (videos.take k).length →
        db.outcome (db.executed.length + j) = none := by
      intro j hj
      exact hbefore j (by rw [List.length_take] at hj; omega)
    rw [writeToPostgres_fails_at videos db k err hk hbefore hat,
      writeToPostgres_all_ok (videos.take k) db htake]
    refine ⟨rfl, rfl, ?_, rfl, rfl, rfl, rfl⟩
    simp only [List.length_append, List.length_map, List.length_take]
    omega
  have hall : (∀ j, j < videos.length → db.outcome (db.executed.length + j) = none) →
      (writeToPostgres videos db).2 = .ok ()
        ∧ (writeToPostgres videos db).1.executed = db.executed ++ videos.map execArgs
        ∧ (writeToPostgres videos db).1.table
            = (videos.map execArgs).foldl upsert db.table := by
    intro h
    rw [writeToPostgres_all_ok videos db h]
    exact ⟨rfl, rfl, rfl⟩
  have hconv : (writeToPostgres videos db).2 = .ok () →
      ∀ j, j < videos.length → db.outcome (db.executed.length + j) = none := by
    intro hok
    by_contra hcon
    have hex : ∃ k, k < videos.length ∧ db.outcome (db.executed.length + k) ≠ none := by
      by_contra hne
      apply hcon
      intro j hj
      by_contra hj2
      exact hne ⟨j, hj, hj2⟩
    classical
    have hk := Nat.find_spec hex
    have hmin : ∀ j, j < Nat.find hex → db.outcome (db.executed.length + j) = none := by
      intro j hj
      by_contra hj2
      exact Nat.find_min hex hj ⟨by omega, hj2⟩
    obtain ⟨err, herr⟩ := Option.ne_none_iff_exists'.mp hk.2
    have := (hfail (Nat.find hex) err hk.1 hmin herr).1
    rw [this] at hok
    simp at hok
  exact ⟨⟨hconv, fun h => (hall h).1⟩, fun hok => (hall (hconv hok)).2, hfail⟩

/-- C8 on four records against a database whose third statement fails: an
error after three statements, and exactly the first two records are in the
table. -/
theorem writeToPostgres_first_failure_witness :
    (writeToPostgres [sampleVideo "a" 1, sampleVideo "b" 2, sampleVideo "c" 3,
          sampleVideo "d" 4] failThird).2
        = .error "failed to insert video: boom"
      ∧ (writeToPostgres [sampleVideo "a" 1, sampleVideo "b" 2, sampleVideo "c" 3,
          sampleVideo "d" 4] failThird).1.executed
        = [execArgs (sampleVideo "a" 1), execArgs (sampleVideo "b" 2),
            execArgs (sampleVideo "c" 3)]
      ∧ (writeToPostgres [sampleVideo "a" 1, sampleVideo "b" 2, sampleVideo "c" 3,
          sampleVideo "d" 4] failThird).1.table
        = [execArgs (sampleVideo "a" 1), execArgs (sampleVideo "b" 2)] := by
  have h := (writeToPostgres_first_failure
    [sampleVideo "a" 1, sampleVideo "b" 2, sampleVideo "c" 3, sampleVideo "d" 4]
    failThird).2.2 2 "boom"
    (by decide) (by intro j hj; interval_cases j <;> rfl) rfl
  exact ⟨h.1, h.2.1, h.2.2.2.1.trans (by decide)⟩

theorem upsert_of_absent (table : List Row) (proposed : Row)
    (h : ∀ row ∈ table, row.id ≠ proposed.id) : upsert table proposed = table ++ [proposed] := by
  have hany : table.any (fun old => decide (old.id = proposed.id)) = false := by
    rw [List.any_eq_false]
    intro row hrow
    simpa using h row hrow
  simp [upsert, hany]

theorem upsert_of_present (table : List Row) (proposed : Row)
    (h : ∃ row ∈ table, row.id = proposed.id) :
    upsert table proposed =
      table.map (fun old => if old.id = proposed.id then conflictUpdate old proposed else old) := by
  have hany : table.any (fun old => decide (old.id = proposed.id)) = true := by
    rw [List.any_eq_true]
    obtain ⟨row, hrow, hid⟩ := h
    exact ⟨row, hrow, by simpa using hid⟩
  simp [upsert, hany]

theorem map_update_of_absent (table : List Row) (proposed : Row)
    (h : ∀ row ∈ table, row.id ≠ proposed.id) :
    table.map (fun old => if old.id = proposed.id then conflictUpdate old proposed else old)
      = table := by
  induction table with
  | nil => rfl
  | cons row rest ih =>
    have h1 : row.id ≠ proposed.id := h row (List.mem_cons_self _ _)
    have h2 : ∀ r ∈ rest, r.id ≠ proposed.id := fun r hr => h r (List.mem_cons_of_mem _ hr)
    simp [h1, ih h2]

/-- The upsert statement is idempotent on every table. -/
theorem upsert_idem (table : List Row) (proposed : Row) :
    upsert (upsert table proposed) proposed = upsert table proposed := by
  by_cases h : ∃ row ∈ table, row.id = proposed.id
  · rw [upsert_of_present table proposed h]
    have h2 : ∃ row ∈ table.map (fun old =>
        if old.id = proposed.id then conflictUpdate old proposed else old),
        row.id = proposed.id := by
      obtain ⟨row, hrow, hid⟩ := h
      exact ⟨conflictUpdate row proposed, List.mem_map.mpr ⟨row, hrow, by simp [hid]⟩, hid⟩
    rw [upsert_of_present _ proposed h2, List.map_map]
    apply List.map_congr_left
    intro row _
    by_cases hid : row.id = proposed.id
    · have : (conflictUpdate row proposed).id = proposed.id := hid
      simp [hid, this, conflictUpdate]
    · simp [hid]
  · have habs : ∀ row ∈ table, row.id ≠ proposed.id := fun row hrow hid => h ⟨row, hrow, hid⟩
    rw [upsert_of_absent table proposed habs]
    have h2 : ∃ row ∈ table ++ [proposed], row.id = proposed.id :=
      ⟨proposed, by simp, rfl⟩
    rw [upsert_of_present _ proposed h2, List.map_append, map_update_of_absent table proposed habs]
    simp [conflictUpdate]

/-- Upserting a second row with the id of a row just inserted keeps that row's
write-once columns and takes the second row's six mutable columns. -/
theorem upsert_twice_of_absent (table : List Row) (first second : Row)
    (hid : first.id = second.id) (h : ∀ row ∈ table, row.id ≠ first.id) :
    upsert (upsert table first) second = table ++ [conflictUpdate first second] := by
  have habs2 : ∀ row ∈ table, row.id ≠ second.id := fun row hrow => hid ▸ h row hrow
  rw [upsert_of_absent table first h,
    upsert_of_present _ second ⟨first, by simp, hid⟩, List.map_append,
    map_update_of_absent table second habs2]
  simp [hid]

theorem writeToPostgres_single (video : Video) (db : DB)
    (h : db.outcome db.executed.length = none) :
    writeToPostgres [video] db =
      ({ db with table := upsert db.table (execArgs video),
                 executed := db.executed ++ [execArgs video] }, .ok ()) := by
  rw [writeToPostgres_cons_ok video [] db h, writeToPostgres_nil]

/-- C5: on a database whose statements succeed, persisting `r1` and then `r2`
with the same id, absent from the table beforehand, leaves exactly one row for
that id: its `channel`, `title`, `description` and `published_at` are those of
`r1`, and its `views`, `likes`, `dislikes`, `comment_count`, `topics` and
`tags` are those of `r2`.  One call on `[r1, r2]` leaves the same table as the
two calls.  And on every table, persisting a record twice leaves the table
that persisting it once leaves. -/
theorem writeToPostgres_upsert_idempotent (db : DB) (r1 r2 : Video)
    (hok : ∀ n, db.outcome n = none) (hid : r1.ID = r2.ID)
    (habsent : ∀ row ∈ db.table, row.id ≠ r1.ID) :
    (writeToPostgres [r2] (writeToPostgres [r1] db).1).2 = .ok ()
      ∧ (writeToPostgres [r2] (writeToPostgres [r1] db).1).1.table.filter
            (fun row => decide (row.id = r1.ID))
          = [{ id := r1.ID
               channel := r1.ChannelTitle
               title := r1.Title
               description := r1.Description
               published_at := r1.PublishedAt
               views := r2.ViewCount
               likes := r2.LikeCount
               dislikes := r2.DislikeCount
               comment_count := r2.CommentCount
               topics := join r2.Topics ";"
               tags := join r2.Tags ";" }]
      ∧ (writeToPostgres [r1, r2] db).1.table
          = (writeToPostgres [r2] (writeToPostgres [r1] db).1).1.table
      ∧ (∀ (r : Video) (db0 : DB), (∀ n, db0.outcome n = none) →
          (writeToPostgres [r] (writeToPostgres [r] db0).1).1.table
              = (writeToPostgres [r] db0).1.table
            ∧ (writeToPostgres [r, r] db0).1.table = (writeToPostgres [r] db0).1.table) := by
  have hpair : ∀ (a b : Video) (d : DB), (∀ n, d.outcome n = none) →
      writeToPostgres [a] d = ({ d with table := upsert d.table (execArgs a),
                                        executed := d.executed ++ [execArgs a] }, .ok ())
        ∧ writeToPostgres [b] (writeToPostgres [a] d).1
            = ({ d with table := upsert (upsert d.table (execArgs a)) (execArgs b),
                        executed := d.executed ++ [execArgs a] ++ [execArgs b] }, .ok ())
        ∧ (writeToPostgres [a, b] d).1.table
            = upsert (upsert d.table (execArgs a)) (execArgs b) := by
    intro a b d hd
    have h1 := writeToPostgres_single a d (hd _)
    refine ⟨h1, ?_, ?_⟩
    · rw [h1]
      exact writeToPostgres_single b _ (hd _)
    · rw [writeToPostgres_all_ok [a, b] d (fun j _ => hd _)]
      rfl
  obtain ⟨_, h2, h3⟩ := hpair r1 r2 db hok
  have hid2 : (execArgs r1).id = (execArgs r2).id := hid
  have habs2 : ∀ row ∈ db.table, row.id ≠ (execArgs r1).id := habsent
  refine ⟨by rw [h2], ?_, by rw [h3, h2], ?_⟩
  · rw [h2]
    simp only []
    rw [upsert_twice_of_absent db.table (execArgs r1) (execArgs r2) hid2 habs2,
      List.filter_append]
    have hnone : db.table.filter (fun row => decide (row.id = r1.ID)) = [] := by
      rw [List.filter_eq_nil_iff]
      intro row hrow
      simpa using habsent row hrow
    rw [hnone]
    simp [conflictUpdate, execArgs]
  · intro r db0 hd
    obtain ⟨g1, g2, g3⟩ := hpair r r db0 hd
    rw [g3, g2, g1]
    exact ⟨upsert_idem _ _, upsert_idem _ _⟩

/-- C5 on an empty table: a record persisted, then persisted again with a new
title and view count, leaves one row for its id, with the first title and the
second view count. -/
theorem writeToPostgres_upsert_idempotent_witness :
    (writeToPostgres [sampleUpdate] (writeToPostgres [sampleVideo "a" 1] emptyDB).1).1.table.filter
        (fun row => decide (row.id = "a"))
      = [{ execArgs (sampleVideo "a" 1) with views := 9 }] :=
  ((writeToPostgres_upsert_idempotent emptyDB (sampleVideo "a" 1) sampleUpdate
    (fun _ => rfl) rfl (fun row hrow => absurd hrow (List.not_mem_nil row))).2.1).trans rfl

end Ytscraper
